import Mathlib

/-!
Verification of the feed-to-ledger reconciliation engine of the rss-sync
repository (main.ts).  The TypeScript source is embedded shallowly:

* JavaScript numbers that can be NaN are modelled as `Option Int`
  (`none` = NaN); a JS `Date` value is its millisecond number.
* `undefined`-able values are `Option` types.
* Fallible code (`throw`) is `Except String`.
* The regular expression `GUID_PATTERN` (which has the shape
  lineStart, literal marker opening, a nonempty run of characters other
  than double quote and greater-than, literal marker closing) is executed
  by an explicit scanner over the character list, multiline-aware exactly
  as the JS `m` flag prescribes (a caret matches at position 0 and after
  any line terminator).
* `String.prototype.search(url)` coerces its argument to a RegExp.  The
  model implements the regex fragment in which a dot matches any
  non-line-terminator character and every other character matches itself;
  it is faithful for URLs that contain no regex metacharacter other than
  the dot.
* `Array.prototype.sort` with the comparator `a.timestampMsUTC -
  b.timestampMsUTC` is modelled as a stable insertion sort.  For lists on
  which the comparator is consistent (no NaN timestamps) ECMAScript
  requires the stable sorted permutation, which is what the model
  computes; with NaN timestamps the engine order is implementation
  defined and the model fixes one concrete choice.
-/

/-- A JavaScript number restricted to the integral values the program
handles; `none` models NaN (for example the value of an invalid Date). -/
abbrev JSNum := Option Int

/-- Line terminators recognised by the JS regex `m` flag and by the dot
metacharacter: LF, CR, LINE SEPARATOR, PARAGRAPH SEPARATOR. -/
def isLineTerm (c : Char) : Bool :=
  c = '\n' || c = '\r' || c = Char.ofNat 0x2028 || c = Char.ofNat 0x2029

/-- Whitespace stripped by `String.prototype.trimEnd` (the code points the
program can realistically meet; only "is a prefix after trimming" matters
for the proofs, which holds for any whitespace set). -/
def isJsWs (c : Char) : Bool :=
  c = ' ' || c = '\t' || c = '\n' || c = '\r' ||
  c = Char.ofNat 0x0b || c = Char.ofNat 0x0c ||
  c = Char.ofNat 0xa0 || c = Char.ofNat 0xfeff ||
  c = Char.ofNat 0x2028 || c = Char.ofNat 0x2029

/-- Characters of a list with trailing whitespace removed. -/
def trimTrail (l : List Char) : List Char :=
  (l.reverse.dropWhile isJsWs).reverse

/-- Embedding of `markdown.trimEnd()`. -/
def jsTrimEnd (s : String) : String :=
  String.mk (trimTrail s.data)

/-- A character admissible inside a GUID marker: anything but a double
quote or a greater-than sign (the class complement in `GUID_PATTERN`,
and the set kept by `normalizeGUID`). -/
def guidChar (c : Char) : Bool :=
  c ≠ '"' && c ≠ '>'

/-- The literal opening of the marker regex and of the string built by
`addGUID`: less-than, bang, dash, dash, space, G, U, I, D, colon, space,
double quote. -/
def markerOpen : List Char :=
  ['<', '!', '-', '-', ' ', 'G', 'U', 'I', 'D', ':', ' ', '"']

/-- The literal closing of the marker: double quote, space, dash, dash,
greater-than. -/
def markerClose : List Char :=
  ['"', ' ', '-', '-', '>']

/-- Embedding of `normalizeGUID` from main.ts: a missing or empty id maps
to the placeholder string, otherwise every double quote and greater-than
character is removed (the `replaceAll` with class quote/greater-than). -/
def normalizeGUID (value : Option String) : String :=
  match value with
  | none => "undefined"
  | some v => if v = "" then "undefined" else String.mk (v.data.filter guidChar)

/-- Embedding of `addGUID`: trim trailing whitespace, append a blank line
and the marker text containing the normalized id. -/
def addGUID (markdown : String) (guid : Option String) : String :=
  jsTrimEnd markdown ++ String.mk ('\n' :: '\n' :: markerOpen)
    ++ normalizeGUID guid ++ String.mk markerClose

/-- Strip `p` from the front of `s`; `some r` holds the rest on success. -/
def stripLead : List Char → List Char → Option (List Char)
  | [], s => some s
  | _ :: _, [] => none
  | p :: ps, c :: cs => if p = c then stripLead ps cs else none

/-- One attempted match of `GUID_PATTERN` at the current position: the
literal opening, a nonempty run of `guidChar`s (the capture group), the
literal closing.  Returns the capture. -/
def matchGUIDAt (s : List Char) : Option (List Char) :=
  match stripLead markerOpen s with
  | none => none
  | some s1 =>
    if (s1.takeWhile guidChar).isEmpty then none
    else
      match stripLead markerClose (s1.dropWhile guidChar) with
      | none => none
      | some _ => some (s1.takeWhile guidChar)

/-- Scanner for the first match of the multiline pattern: try the pattern
at every line start (position 0 or right after a line terminator), first
match wins.  `findGUID` only ever uses the first match, so later matches
need not be collected. -/
def findGUIDAux : Bool → List Char → Option (List Char)
  | _, [] => none
  | lineStart, c :: cs =>
    if lineStart then
      match matchGUIDAt (c :: cs) with
      | some cap => some cap
      | none => findGUIDAux (isLineTerm c) cs
    else findGUIDAux (isLineTerm c) cs

/-- Embedding of `findGUID`: the capture of the first `GUID_PATTERN` match
in the body, or `none` when there is no match.  (When several markers are
present the code logs a warning and still returns the first capture.) -/
def findGUID (markdown : String) : Option String :=
  (findGUIDAux true markdown.data).map String.mk

/-- Match the URL-as-regex `pat` against the front of the text: a dot
matches any non-line-terminator character, anything else itself. -/
def urlMatchAt : List Char → List Char → Bool
  | [], _ => true
  | _ :: _, [] => false
  | p :: ps, c :: cs =>
    (if p = '.' then !(isLineTerm c) else p = c) && urlMatchAt ps cs

/-- Embedding of `markdown.search(url) >= 0`: some position of the text
matches the URL interpreted as a regular expression. -/
def searchFound (pat : List Char) : List Char → Bool
  | [] => urlMatchAt pat []
  | c :: cs => urlMatchAt pat (c :: cs) || searchFound pat cs

/-- Embedding of `addURL`: if the URL (as a regex) is found nowhere in the
body, append the continue-reading backlink after trimming; otherwise
return the body unchanged. -/
def addURL (markdown url : String) : String :=
  if searchFound url.data markdown.data then markdown
  else jsTrimEnd markdown ++ "\n\n" ++ "[Continue Readingâ€¦](" ++ url ++ ")"

/-- `l` occurs contiguously inside `s` (executable form). -/
def occursIn (p : List Char) : List Char → Bool
  | [] => (stripLead p []).isSome
  | c :: cs => (stripLead p (c :: cs)).isSome || occursIn p cs

example : normalizeGUID (some "a\"b>c") = "abc" := by decide
example : findGUID (addGUID "hello" (some "id1")) = some "id1" := by decide
example : findGUID (addGUID "" (some ">")) = none := by decide
example : addURL "abc" "a.c" = "abc" := by decide
example : occursIn ['b', 'c'] ['a', 'b', 'c', 'd'] = true := by decide

/-- The `title`/`description` fields of the rss library: a value plus a
type tag (html, xhtml, text, ...). -/
structure TitleField where
  value : Option String
  fieldType : Option String
  deriving DecidableEq

/-- One parsed feed entry as the rss library hands it to `fromEntry`:
optional id, optional published and dc:modified dates (a present date may
still be an invalid Date, i.e. NaN), optional content and description
(each with an optional value), links (each with an optional href), and an
optional typed title. -/
structure FeedEntry where
  id : Option String
  published : Option JSNum
  dcModified : Option JSNum
  content : Option (Option String)
  description : Option (Option String)
  links : List (Option String)
  title : Option TitleField
  deriving DecidableEq

/-- Embedding of `getText`: missing field or falsy value pass through; an
html/xhtml typed value is entity-decoded by the external unescaper. -/
def getText (unesc : String → String) (field : Option TitleField) : Option String :=
  match field with
  | none => none
  | some f =>
    match f.value with
    | none => none
    | some v =>
      if v = "" then some v
      else if f.fieldType = some "html" || f.fieldType = some "xhtml" then some (unesc v)
      else some v

/-- Embedding of the `FeedItem` class: guid, optional title, rendered
markdown, and the publish timestamp (`published.valueOf()`, NaN for an
invalid Date). -/
structure FeedItem where
  guid : Option String
  title : Option String
  markdown : String
  timestampMsUTC : JSNum
  deriving DecidableEq

/-- Embedding of the `FeedItem` constructor: it throws exactly when the
timestamp equals 0 (JS `==`; NaN == 0 is false, so an invalid Date
passes). -/
def FeedItem.mk? (guid : Option String) (title : Option String)
    (markdown : String) (published : JSNum) : Except String FeedItem :=
  if published = some 0 then
    Except.error "a FeedItem Date may not be exactly UNIX Epoch."
  else Except.ok ⟨guid, title, markdown, published⟩

/-- Embedding of `FeedItem.fromEntry`, parameterised by the external
html-to-markdown converter `conv` and html entity unescaper `unesc`.
`Except.ok none` is the skip signal (no usable date); `Except.error` is
the constructor throw. -/
def fromEntry (conv : Option String → String) (unesc : String → String)
    (item : FeedEntry) : Except String (Option FeedItem) :=
  match (match item.published with | none => item.dcModified | some d => some d) with
  | none => Except.ok none
  | some d =>
    let body := match item.content with | none => item.description | some c => some c
    let markdown0 := conv (match body with | none => none | some v => v)
    let url : Option String := match item.links.head? with | none => none | some h => h
    let markdown1 := match url with
      | none => markdown0
      | some u => if u = "" then markdown0 else addURL markdown0 u
    let markdown2 := addGUID markdown1 item.id
    (FeedItem.mk? item.id (getText unesc item.title) markdown2 d).map some

/-- The cap on feed entries considered per run. -/
def MAX_FEED_ITEMS : Nat := 200

/-- The normalisation loop of `syncFeed`: run `fromEntry` over the
retained entries, keep the non-skipped items in feed order, propagate a
constructor throw. -/
def collectItems (conv : Option String → String) (unesc : String → String) :
    List FeedEntry → Except String (List FeedItem)
  | [] => Except.ok []
  | e :: rest =>
    match fromEntry conv unesc e with
    | Except.error msg => Except.error msg
    | Except.ok it? =>
      match collectItems conv unesc rest with
      | Except.error msg => Except.error msg
      | Except.ok its =>
        Except.ok (match it? with | some it => it :: its | none => its)

/-- The JS comparator `FeedItem.sortByDate` (`a.timestampMsUTC -
b.timestampMsUTC`) read as "a may come before b": true when the
difference is not positive; a NaN comparison is treated as a tie. -/
def jsCmpLe (a b : FeedItem) : Bool :=
  match a.timestampMsUTC, b.timestampMsUTC with
  | some x, some y => x ≤ y
  | _, _ => true

/-- Stable insertion used to model `Array.prototype.sort`. -/
def insertJS (a : FeedItem) : List FeedItem → List FeedItem
  | [] => [a]
  | b :: bs => if jsCmpLe a b then a :: b :: bs else b :: insertJS a bs

/-- Model of `itemsToStore.sort(FeedItem.sortByDate)` (see the header
note: faithful whenever the comparator is consistent). -/
def jsSort : List FeedItem → List FeedItem
  | [] => []
  | a :: as => insertJS a (jsSort as)

/-- The payload of a ledger item record (post, profile, or anything
else). -/
inductive LedgerBody where
  | post (title : Option String) (body : String)
  | profile (displayName about : String)
  | other
  deriving DecidableEq

/-- One record of the identity ledger as streamed by
`client.getUserItems` (newest first) and fetched by `client.getItem`. -/
structure LedgerRecord where
  timestampMsUtc : Int
  body : LedgerBody
  deriving DecidableEq

/-- The loop body of `getSeenGUIDs` on one record: non-post records are
skipped, a post record contributes the first decoded marker, if any. -/
def recGUID (r : LedgerRecord) : Option String :=
  match r.body with
  | LedgerBody.post _ b => findGUID b
  | _ => none

/-- `if (guid) { guids.add(guid) }` on the insertion-ordered JS Set. -/
def seenAdd (acc : List String) (g : Option String) : List String :=
  match g with
  | none => acc
  | some s => if s = "" then acc else if s ∈ acc then acc else acc ++ [s]

/-- `entry.timestampMsUtc < cutoff` with a possibly-NaN cutoff (any
comparison with NaN is false, so a NaN cutoff never stops the scan). -/
def jsLtB (ts : Int) (cutoff : JSNum) : Bool :=
  match cutoff with
  | none => false
  | some c => ts < c

def ONE_WEEK_MS : Int := 1000 * 60 * 60 * 24 * 7

/-- The scanning loop of `getSeenGUIDs`: walk the (newest-first) records,
stop at the first one strictly older than the cutoff, collect decoded
markers of post records. -/
def seenScan (cutoff : JSNum) : List LedgerRecord → List String → List String
  | [], acc => acc
  | r :: rest, acc =>
    if jsLtB r.timestampMsUtc cutoff then acc
    else seenScan cutoff rest (seenAdd acc (recGUID r))

/-- Embedding of `getSeenGUIDs` (the ledger argument is the identity
record stream in the newest-first order the client guarantees). -/
def getSeenGUIDs (ledger : List LedgerRecord) (oldestTimestamp : JSNum) : List String :=
  seenScan (match oldestTimestamp with | none => none | some t => some (t - ONE_WEEK_MS))
    ledger []

/-- `seenGUIDs.has(i.guid)`: a JS Set of strings never contains
undefined. -/
def seenHas (seen : List String) (g : Option String) : Bool :=
  match g with
  | none => false
  | some s => seen.contains s

/-- `item.toProtobuf()` followed by `putItem`: materialise the record that
publishing appends.  `BigInt(NaN)` throws, hence `none` for an invalid
timestamp. -/
def FeedItem.toRecord? (it : FeedItem) : Option LedgerRecord :=
  match it.timestampMsUTC with
  | none => none
  | some t => some ⟨t, LedgerBody.post it.title it.markdown⟩

/-- The publish loop of `syncFeed`: items are signed and submitted
sequentially in list order; a throw aborts the loop, leaving the already
published prefix in the ledger.  Returns the published items, their
records, and whether the loop completed. -/
def publishLoop : List FeedItem → List FeedItem × List LedgerRecord × Bool
  | [] => ([], [], true)
  | it :: rest =>
    match FeedItem.toRecord? it with
    | none => ([], [], false)
    | some r =>
      (it :: (publishLoop rest).1, r :: (publishLoop rest).2.1, (publishLoop rest).2.2)

/-- The timestamp of the first (oldest) sorted item,
`itemsToStore[0].timestampMsUTC`. -/
def headTs : List FeedItem → JSNum
  | [] => none
  | i :: _ => i.timestampMsUTC

/-- All intermediate states of one `syncFeed` run, so that the theorems
can speak about each stage. -/
structure SyncRun where
  items0 : List FeedItem
  sorted : List FeedItem
  oldest : JSNum
  seen : List String
  remaining : List FeedItem
  publishedItems : List FeedItem
  publishedRecords : List LedgerRecord
  ok : Bool
  deriving DecidableEq

/-- The part of `syncFeed` after normalisation: early return on an empty
item list, sort oldest-first, scan history, filter seen guids, publish
the rest in order. -/
def syncFeedCore (items0 : List FeedItem) (ledger : List LedgerRecord) : SyncRun :=
  match items0 with
  | [] => ⟨[], [], none, [], [], [], [], true⟩
  | _ :: _ =>
    let sorted := jsSort items0
    let oldest := headTs sorted
    let seen := getSeenGUIDs ledger oldest
    let remaining := sorted.filter (fun i => !(seenHas seen i.guid))
    ⟨items0, sorted, oldest, seen, remaining,
      (publishLoop remaining).1, (publishLoop remaining).2.1, (publishLoop remaining).2.2⟩

/-- Embedding of `syncFeed` for one feed: normalise the first
`MAX_FEED_ITEMS` entries (a constructor throw aborts the feed before
anything is published), then run the core pipeline. -/
def syncFeedRun (conv : Option String → String) (unesc : String → String)
    (entries : List FeedEntry) (ledger : List LedgerRecord) : SyncRun :=
  match collectItems conv unesc (entries.take MAX_FEED_ITEMS) with
  | Except.error _ => ⟨[], [], none, [], [], [], [], false⟩
  | Except.ok items0 => syncFeedCore items0 ledger

/-- The per-feed loop of `syncCommand`: every feed is attempted inside
its own try/catch, so one failure never stops the loop. -/
def syncBatch (conv : Option String → String) (unesc : String → String) :
    List (List FeedEntry × List LedgerRecord) → List SyncRun
  | [] => []
  | f :: rest => syncFeedRun conv unesc f.1 f.2 :: syncBatch conv unesc rest

/-- The `errors` array length at the end of `syncCommand`. -/
def batchErrorCount (conv : Option String → String) (unesc : String → String) :
    List (List FeedEntry × List LedgerRecord) → Nat
  | [] => 0
  | f :: rest =>
    (if (syncFeedRun conv unesc f.1 f.2).ok then 0 else 1)
      + batchErrorCount conv unesc rest

/-- `if (errors.length > 0) Deno.exit(1)`: the process outcome of one
batch. -/
def syncExitCode (conv : Option String → String) (unesc : String → String)
    (feeds : List (List FeedEntry × List LedgerRecord)) : Nat :=
  if 0 < batchErrorCount conv unesc feeds then 1 else 0

/-! ### Lemmas about the marker codec -/

lemma stripLead_eq_some (p : List Char) :
    ∀ s r, stripLead p s = some r ↔ s = p ++ r := by
  induction p with
  | nil => intro s r; simp [stripLead]
  | cons p ps ih =>
    intro s r
    cases s with
    | nil => simp [stripLead]
    | cons c cs =>
      by_cases h : p = c
      · subst h
        simp [stripLead, ih]
      · simp [stripLead, h]
        intro hc
        exact absurd hc.symm h

lemma stripLead_self_append (p r : List Char) : stripLead p (p ++ r) = some r :=
  (stripLead_eq_some p (p ++ r) r).mpr rfl

lemma occursIn_iff (p : List Char) :
    ∀ s, occursIn p s = true ↔ ∃ u v, s = u ++ p ++ v := by
  intro s
  induction s with
  | nil =>
    simp [occursIn, Option.isSome_iff_exists, stripLead_eq_some]
  | cons c cs ih =>
    simp only [occursIn, Bool.or_eq_true, Option.isSome_iff_exists,
      stripLead_eq_some, ih]
    constructor
    · rintro (⟨r, hr⟩ | ⟨u, v, hv⟩)
      · exact ⟨[], r, by simpa using hr⟩
      · exact ⟨c :: u, v, by simp [hv]⟩
    · rintro ⟨u, v, hv⟩
      cases u with
      | nil => exact Or.inl ⟨v, by simpa using hv⟩
      | cons x u =>
        right
        refine ⟨u, v, ?_⟩
        have := hv
        simp at this
        simpa [List.append_assoc] using this.2

lemma trimTrail_pre (l : List Char) :
    trimTrail l ++ (l.reverse.takeWhile isJsWs).reverse = l := by
  unfold trimTrail
  rw [← List.reverse_append, List.takeWhile_append_dropWhile, List.reverse_reverse]

lemma data_eq_nil_iff (s : String) : s.data = [] ↔ s = "" := by
  constructor
  · intro h
    cases s with
    | mk d => cases h; rfl
  · intro h
    rw [h]

lemma normalizeGUID_chars (g : Option String) :
    ∀ c ∈ (normalizeGUID g).data, guidChar c = true := by
  cases g with
  | none => decide
  | some v =>
    by_cases h : v = ""
    · simp [normalizeGUID, h]
      decide
    · simp only [normalizeGUID, h, if_false]
      intro c hc
      exact List.of_mem_filter hc

lemma takeWhile_all_stop (p : Char → Bool) :
    ∀ (xs : List Char), (∀ c ∈ xs, p c = true) → ∀ y (ys : List Char), p y = false →
      (xs ++ y :: ys).takeWhile p = xs ∧ (xs ++ y :: ys).dropWhile p = y :: ys := by
  intro xs
  induction xs with
  | nil =>
    intro _ y ys hy
    simp [List.takeWhile_cons, List.dropWhile_cons, hy]
  | cons x xs ih =>
    intro hall y ys hy
    have hx : p x = true := hall x (List.mem_cons_self x xs)
    have hrest : ∀ c ∈ xs, p c = true := fun c hc => hall c (List.mem_cons_of_mem x hc)
    have := ih hrest y ys hy
    simp [List.takeWhile_cons, List.dropWhile_cons, hx, this.1, this.2]

lemma matchGUIDAt_marker (G rest : List Char) (hne : G ≠ [])
    (hch : ∀ c ∈ G, guidChar c = true) :
    matchGUIDAt (markerOpen ++ (G ++ (markerClose ++ rest))) = some G := by
  have hsplit := takeWhile_all_stop guidChar G hch '"' ([' ', '-', '-', '>'] ++ rest)
    (by decide)
  have h1 : (G ++ (markerClose ++ rest)).takeWhile guidChar = G := hsplit.1
  have h2 : (G ++ (markerClose ++ rest)).dropWhile guidChar = markerClose ++ rest :=
    hsplit.2
  have hemp : G.isEmpty = false := by
    cases G with
    | nil => exact absurd rfl hne
    | cons a l => rfl
  simp only [matchGUIDAt, stripLead_self_append, h1, h2, hemp, Bool.false_eq_true,
    if_false]

lemma matchGUIDAt_ne_lt {c : Char} (z : List Char) (h : c ≠ '<') :
    matchGUIDAt (c :: z) = none := by
  have hne : '<' ≠ c := fun hc => h hc.symm
  have : stripLead markerOpen (c :: z) = none := by
    rw [show markerOpen = '<' :: ['!', '-', '-', ' ', 'G', 'U', 'I', 'D', ':', ' ', '"']
      from rfl]
    simp [stripLead, hne]
  simp [matchGUIDAt, this]

lemma matchGUIDAt_none_of_not_lead {s : List Char}
    (h : stripLead markerOpen s = none) : matchGUIDAt s = none := by
  simp [matchGUIDAt, h]

lemma findGUIDAux_true_of_match {s cap : List Char} (hs : s ≠ [])
    (h : matchGUIDAt s = some cap) : findGUIDAux true s = some cap := by
  cases s with
  | nil => exact absurd rfl hs
  | cons c cs => simp [findGUIDAux, h]

/-- The line-start flag the scanner carries after consuming `xs`. -/
def lineState (xs : List Char) (st : Bool) : Bool :=
  xs.foldl (fun _ c => isLineTerm c) st

lemma lineState_append (xs ys : List Char) (st : Bool) :
    lineState (xs ++ ys) st = lineState ys (lineState xs st) := by
  unfold lineState
  exact List.foldl_append _ _ _ _

lemma findGUIDAux_skip (ys : List Char) :
    ∀ (xs : List Char) (st : Bool),
      (∀ t, t ≠ [] → (∃ u, u ++ t = xs) → matchGUIDAt (t ++ ys) = none) →
      findGUIDAux st (xs ++ ys) = findGUIDAux (lineState xs st) ys := by
  intro xs
  induction xs with
  | nil => intro st _; rfl
  | cons c cs ih =>
    intro st h
    have hc : matchGUIDAt (c :: (cs ++ ys)) = none := by
      have := h (c :: cs) (by simp) ⟨[], rfl⟩
      simpa using this
    have hrest : ∀ t, t ≠ [] → (∃ u, u ++ t = cs) → matchGUIDAt (t ++ ys) = none := by
      intro t ht ⟨u, hu⟩
      exact h t ht ⟨c :: u, by simp [hu]⟩
    cases st with
    | true =>
      show (match matchGUIDAt (c :: (cs ++ ys)) with
            | some cap => some cap
            | none => findGUIDAux (isLineTerm c) (cs ++ ys)) =
          findGUIDAux (lineState cs (isLineTerm c)) ys
      rw [hc]
      exact ih (isLineTerm c) hrest
    | false =>
      show findGUIDAux (isLineTerm c) (cs ++ ys) =
          findGUIDAux (lineState cs (isLineTerm c)) ys
      exact ih (isLineTerm c) hrest

lemma sufSplit {s l m : List Char} (h : ∃ u, u ++ s = l ++ m) :
    (∃ u, u ++ s = m) ∨ ∃ t, (∃ u, u ++ t = l) ∧ t ≠ [] ∧ s = t ++ m := by
  obtain ⟨u, hu⟩ := h
  rcases List.append_eq_append_iff.mp hu with ⟨e, he1, he2⟩ | ⟨f, hf1, hf2⟩
  · cases e with
    | nil =>
      left
      exact ⟨[], by simpa using he2⟩
    | cons x e =>
      right
      exact ⟨x :: e, ⟨u, he1.symm⟩, by simp, he2⟩
  · left
    exact ⟨f, hf2.symm⟩

lemma mk_data (l : List Char) : (String.mk l).data = l := rfl

lemma addGUID_data (b : String) (g : Option String) :
    (addGUID b g).data =
      (trimTrail b.data ++ ['\n', '\n']) ++
        (markerOpen ++ ((normalizeGUID g).data ++ markerClose)) := by
  simp [addGUID, jsTrimEnd, String.data_append, mk_data, List.append_assoc]

lemma occursIn_of_parts {p l : List Char} (u v : List Char) (h : l = u ++ p ++ v) :
    occursIn p l = true :=
  (occursIn_iff p l).mpr ⟨u, v, h⟩

/-- Auxiliary step for the round-trip theorem: no position strictly inside
the trimmed body or the two appended newlines can start a marker match,
because the marker opening does not occur in the body and contains no
newline. -/
lemma roundtrip_no_early_match (bd : List Char) (G : List Char)
    (h1 : occursIn markerOpen bd = false) :
    ∀ t, t ≠ [] → (∃ u, u ++ t = trimTrail bd ++ ['\n', '\n']) →
      matchGUIDAt (t ++ (markerOpen ++ (G ++ markerClose))) = none := by
  have htp := trimTrail_pre bd
  have hoccT : ∀ u v, trimTrail bd = u ++ markerOpen ++ v → False := by
    intro u v h
    have hb : bd = u ++ markerOpen ++ (v ++ (bd.reverse.takeWhile isJsWs).reverse) := by
      conv_lhs => rw [← htp]
      rw [h]
      simp [List.append_assoc]
    have : occursIn markerOpen bd = true := occursIn_of_parts _ _ hb
    rw [h1] at this
    cases this
  intro t ht hsuf
  rcases sufSplit hsuf with ⟨u2, hu2⟩ | ⟨t2, ⟨u3, hu3⟩, ht2, hteq⟩
  · have hmem : ∀ c ∈ t, c = '\n' := by
      intro c hc
      have hmm : c ∈ u2 ++ t := List.mem_append_right u2 hc
      rw [hu2] at hmm
      simpa using hmm
    cases t with
    | nil => exact absurd rfl ht
    | cons c t3 =>
      have hcn : c = '\n' := hmem c (List.mem_cons_self c t3)
      subst hcn
      exact matchGUIDAt_ne_lt _ (by decide)
  · subst hteq
    rw [List.append_assoc]
    cases hm : stripLead markerOpen
        (t2 ++ (['\n', '\n'] ++ (markerOpen ++ (G ++ markerClose)))) with
    | none => exact matchGUIDAt_none_of_not_lead hm
    | some r =>
      exfalso
      have heq := (stripLead_eq_some _ _ _).mp hm
      rcases List.append_eq_append_iff.mp heq with ⟨e, he1, he2⟩ | ⟨f, hf1, hf2⟩
      · cases e with
        | nil =>
          apply hoccT u3 []
          rw [← hu3]
          simp at he1
          simp [he1]
        | cons x e2 =>
          have hx : '\n' = x := by
            simp only [List.cons_append, List.nil_append] at he2
            injection he2 with hx _
          have hxm : x ∈ markerOpen := by
            rw [he1]
            exact List.mem_append_right t2 (List.mem_cons_self x e2)
          rw [← hx] at hxm
          exact absurd hxm (by decide)
      · exact hoccT u3 f (by rw [← hu3, hf1]; simp [List.append_assoc])

/-- Claim C2, amended: for a body in which the marker opening text does
not occur, and an identifier whose normalization is nonempty, encoding
with `addGUID` and decoding with `findGUID` recovers exactly the
normalized identifier. -/
theorem guid_roundtrip (body guid : String)
    (h1 : occursIn markerOpen body.data = false)
    (h2 : normalizeGUID (some guid) ≠ "") :
    findGUID (addGUID body (some guid)) = some (normalizeGUID (some guid)) := by
  have hGch : ∀ c ∈ (normalizeGUID (some guid)).data, guidChar c = true :=
    normalizeGUID_chars _
  have hGne : (normalizeGUID (some guid)).data ≠ [] := by
    intro h
    exact h2 ((data_eq_nil_iff _).mp h)
  have NM := roundtrip_no_early_match body.data (normalizeGUID (some guid)).data h1
  have hskip := findGUIDAux_skip
    (markerOpen ++ ((normalizeGUID (some guid)).data ++ markerClose))
    (trimTrail body.data ++ ['\n', '\n']) true NM
  have hline : ∀ b : Bool, lineState ['\n', '\n'] b = true := by decide
  have hmatch : findGUIDAux true
      (markerOpen ++ ((normalizeGUID (some guid)).data ++ markerClose)) =
      some (normalizeGUID (some guid)).data := by
    refine findGUIDAux_true_of_match (by simp [markerOpen]) ?_
    simpa using matchGUIDAt_marker (normalizeGUID (some guid)).data [] hGne hGch
  unfold findGUID
  rw [addGUID_data, hskip, lineState_append, hline, hmatch]
  rfl

lemma matchGUIDAt_shape {s cap : List Char} (h : matchGUIDAt s = some cap) :
    cap ≠ [] ∧ ∀ c ∈ cap, guidChar c = true := by
  unfold matchGUIDAt at h
  split at h
  · cases h
  · split at h
    · cases h
    · rename_i hemp
      split at h
      · cases h
      · injection h with h2
        subst h2
        refine ⟨fun hc => ?_, fun c hc => List.mem_takeWhile_imp hc⟩
        rw [hc] at hemp
        exact hemp rfl

lemma findGUIDAux_shape : ∀ (l : List Char) (st : Bool) (cap : List Char),
    findGUIDAux st l = some cap → cap ≠ [] ∧ ∀ c ∈ cap, guidChar c = true := by
  intro l
  induction l with
  | nil => intro st cap h; cases h
  | cons c cs ih =>
    intro st cap h
    cases st with
    | false => exact ih (isLineTerm c) cap h
    | true =>
      revert h
      show (match matchGUIDAt (c :: cs) with
            | some cap2 => some cap2
            | none => findGUIDAux (isLineTerm c) cs) = some cap →
          cap ≠ [] ∧ ∀ x ∈ cap, guidChar x = true
      cases hm : matchGUIDAt (c :: cs) with
      | some cap2 =>
        intro h
        injection h with h2
        subst h2
        exact matchGUIDAt_shape hm
      | none =>
        intro h
        exact ih (isLineTerm c) cap h

lemma findGUID_some_shape {s g : String} (h : findGUID s = some g) :
    g ≠ "" ∧ ∀ c ∈ g.data, guidChar c = true := by
  unfold findGUID at h
  cases haux : findGUIDAux true s.data with
  | none => rw [haux] at h; cases h
  | some cap =>
    rw [haux] at h
    injection h with h2
    subst h2
    obtain ⟨h3, h4⟩ := findGUIDAux_shape _ _ _ haux
    exact ⟨fun hc => h3 ((data_eq_nil_iff _).mpr hc), h4⟩

lemma recGUID_shape {r : LedgerRecord} {g : String} (h : recGUID r = some g) :
    g ≠ "" := by
  unfold recGUID at h
  cases hb : r.body with
  | post ti b =>
    rw [hb] at h
    exact (findGUID_some_shape h).1
  | profile d a => rw [hb] at h; cases h
  | other => rw [hb] at h; cases h

/-! ### Lemmas about the history scanner -/

lemma seenAdd_mem (acc : List String) (g? : Option String) (g : String) :
    g ∈ seenAdd acc g? ↔ g ∈ acc ∨ (g? = some g ∧ g ≠ "") := by
  cases g? with
  | none => simp [seenAdd]
  | some s =>
    show g ∈ (if s = "" then acc else if s ∈ acc then acc else acc ++ [s]) ↔
        g ∈ acc ∨ (some s = some g ∧ g ≠ "")
    by_cases hs : s = ""
    · rw [if_pos hs]
      subst hs
      constructor
      · exact Or.inl
      · rintro (h | ⟨h, hne⟩)
        · exact h
        · injection h with h2
          exact absurd h2.symm hne
    · rw [if_neg hs]
      by_cases hmem : s ∈ acc
      · rw [if_pos hmem]
        constructor
        · exact Or.inl
        · rintro (h | ⟨h, hne⟩)
          · exact h
          · injection h with h2
            subst h2
            exact hmem
      · rw [if_neg hmem, List.mem_append, List.mem_singleton]
        constructor
        · rintro (h | rfl)
          · exact Or.inl h
          · exact Or.inr ⟨rfl, hs⟩
        · rintro (h | ⟨h, hne⟩)
          · exact Or.inl h
          · injection h with h2
            subst h2
            exact Or.inr rfl

lemma seenScan_mem (cutoff : JSNum) :
    ∀ (l : List LedgerRecord) (acc : List String) (g : String),
      g ∈ seenScan cutoff l acc ↔
        g ∈ acc ∨ ∃ r ∈ l.takeWhile (fun r => !jsLtB r.timestampMsUtc cutoff),
          recGUID r = some g ∧ g ≠ "" := by
  intro l
  induction l with
  | nil => intro acc g; simp [seenScan]
  | cons r rest ih =>
    intro acc g
    by_cases hlt : jsLtB r.timestampMsUtc cutoff = true
    · simp [seenScan, hlt, List.takeWhile_cons]
    · simp only [seenScan, Bool.not_eq_true] at hlt ⊢
      rw [if_neg (by simp [hlt])]
      rw [ih, seenAdd_mem]
      simp only [List.takeWhile_cons, hlt, Bool.not_false, if_pos, List.mem_cons]
      constructor
      · rintro ((h | h) | ⟨r2, hr2, h⟩)
        · exact Or.inl h
        · exact Or.inr ⟨r, Or.inl rfl, h⟩
        · exact Or.inr ⟨r2, Or.inr hr2, h⟩
      · rintro (h | ⟨r2, hr2 | hr2, h⟩)
        · exact Or.inl (Or.inl h)
        · subst hr2
          exact Or.inl (Or.inr h)
        · exact Or.inr ⟨r2, hr2, h⟩

lemma getSeenGUIDs_eq (ledger : List LedgerRecord) (t : Int) :
    getSeenGUIDs ledger (some t) = seenScan (some (t - ONE_WEEK_MS)) ledger [] := rfl

lemma mem_getSeenGUIDs_iff (ledger : List LedgerRecord) (t : Int) (g : String) :
    g ∈ getSeenGUIDs ledger (some t) ↔
      ∃ r ∈ ledger.takeWhile (fun x => !jsLtB x.timestampMsUtc (some (t - ONE_WEEK_MS))),
        recGUID r = some g ∧ g ≠ "" := by
  rw [getSeenGUIDs_eq, seenScan_mem]
  simp

lemma seenHas_some_iff (seen : List String) (g : String) :
    seenHas seen (some g) = true ↔ g ∈ seen := by
  show seen.contains g = true ↔ g ∈ seen
  exact List.elem_iff

lemma mem_takeWhile_of_desc {c : Int} :
    ∀ {l : List LedgerRecord},
      l.Pairwise (fun a b => b.timestampMsUtc ≤ a.timestampMsUtc) →
      ∀ r ∈ l, c ≤ r.timestampMsUtc →
        r ∈ l.takeWhile (fun x => !jsLtB x.timestampMsUtc (some c)) := by
  intro l
  induction l with
  | nil => intro _ r hr _; cases hr
  | cons a l2 ih =>
    intro hp r hr hc
    have hpa := List.pairwise_cons.mp hp
    have hca : c ≤ a.timestampMsUtc := by
      rcases List.mem_cons.mp hr with rfl | h2
      · exact hc
      · exact le_trans hc (hpa.1 r h2)
    have hhead : (!jsLtB a.timestampMsUtc (some c)) = true := by
      simp [jsLtB]
      exact hca
    rw [List.takeWhile_cons, if_pos hhead]
    rcases List.mem_cons.mp hr with rfl | h2
    · exact List.mem_cons_self r _
    · exact List.mem_cons_of_mem a (ih hpa.2 r h2 hc)

/-! ### Lemmas about the sort -/

/-- The ordering the spec claims for published items: whenever both
timestamps are actual numbers, the first is at most the second. -/
def tsLe (a b : FeedItem) : Prop :=
  ∀ x y, a.timestampMsUTC = some x → b.timestampMsUTC = some y → x ≤ y

lemma insertJS_perm (a : FeedItem) : ∀ l, (insertJS a l).Perm (a :: l) := by
  intro l
  induction l with
  | nil => exact List.Perm.refl _
  | cons b bs ih =>
    unfold insertJS
    by_cases h : jsCmpLe a b = true
    · rw [if_pos h]
    · rw [if_neg h]
      exact (ih.cons b).trans (List.Perm.swap a b bs)

lemma jsSort_perm : ∀ l, (jsSort l).Perm l := by
  intro l
  induction l with
  | nil => exact List.Perm.refl _
  | cons a as ih =>
    unfold jsSort
    exact (insertJS_perm a (jsSort as)).trans (ih.cons a)

lemma tsLe_of_cmp {a b : FeedItem} (h : jsCmpLe a b = true) : tsLe a b := by
  intro x y hx hy
  unfold jsCmpLe at h
  rw [hx, hy] at h
  simpa using h

lemma tsLe_of_not_cmp {a b : FeedItem} (h : ¬ jsCmpLe a b = true) : tsLe b a := by
  intro x y hx hy
  unfold jsCmpLe at h
  rw [hy, hx] at h
  simp at h
  exact le_of_lt h

lemma tsLe_trans {a b c : FeedItem} (hab : tsLe a b) (hbc : tsLe b c)
    (hb : b.timestampMsUTC ≠ none) : tsLe a c := by
  intro x y hx hy
  cases hB : b.timestampMsUTC with
  | none => exact absurd hB hb
  | some z => exact le_trans (hab x z hx hB) (hbc z y hB hy)

lemma insertJS_pairwise {a : FeedItem} :
    ∀ {l : List FeedItem}, (∀ b ∈ l, b.timestampMsUTC ≠ none) →
      l.Pairwise tsLe → (insertJS a l).Pairwise tsLe := by
  intro l
  induction l with
  | nil =>
    intro _ _
    simp [insertJS]
  | cons b bs ih =>
    intro hv hp
    have hpb := List.pairwise_cons.mp hp
    have hvb : b.timestampMsUTC ≠ none := hv b (List.mem_cons_self b bs)
    have hvbs : ∀ x ∈ bs, x.timestampMsUTC ≠ none :=
      fun x hx => hv x (List.mem_cons_of_mem b hx)
    unfold insertJS
    by_cases h : jsCmpLe a b = true
    · rw [if_pos h]
      have hab : tsLe a b := tsLe_of_cmp h
      refine List.Pairwise.cons ?_ hp
      intro c hc
      rcases List.mem_cons.mp hc with rfl | hc2
      · exact hab
      · exact tsLe_trans hab (hpb.1 c hc2) hvb
    · rw [if_neg h]
      have hba : tsLe b a := tsLe_of_not_cmp h
      refine List.Pairwise.cons ?_ (ih hvbs hpb.2)
      intro c hc
      rcases List.mem_cons.mp ((insertJS_perm a bs).mem_iff.mp hc) with rfl | hc2
      · exact hba
      · exact hpb.1 c hc2

lemma jsSort_pairwise : ∀ {l : List FeedItem},
    (∀ b ∈ l, b.timestampMsUTC ≠ none) → (jsSort l).Pairwise tsLe := by
  intro l
  induction l with
  | nil =>
    intro _
    simp [jsSort]
  | cons a as ih =>
    intro hv
    unfold jsSort
    refine insertJS_pairwise ?_ (ih ?_)
    · intro b hb
      exact hv b (List.mem_cons_of_mem a ((jsSort_perm as).mem_iff.mp hb))
    · intro b hb
      exact hv b (List.mem_cons_of_mem a hb)

lemma sorted_head_tsLe {s0 : FeedItem} {S2 : List FeedItem}
    (hp : (s0 :: S2).Pairwise tsLe) : ∀ it ∈ s0 :: S2, tsLe s0 it := by
  intro it hit
  rcases List.mem_cons.mp hit with rfl | h2
  · intro x y hx hy
    rw [hx] at hy
    injection hy with h3
    exact le_of_eq h3
  · exact (List.pairwise_cons.mp hp).1 it h2

/-! ### Lemmas about the publish loop -/

lemma publishLoop_items_sublist : ∀ l : List FeedItem,
    List.Sublist (publishLoop l).1 l := by
  intro l
  induction l with
  | nil => simp [publishLoop]
  | cons it rest ih =>
    show List.Sublist (publishLoop (it :: rest)).1 (it :: rest)
    unfold publishLoop
    cases h : FeedItem.toRecord? it with
    | none => exact List.nil_sublist _
    | some r => exact ih.cons₂ it

lemma publishLoop_ok_items : ∀ l : List FeedItem,
    (publishLoop l).2.2 = true → (publishLoop l).1 = l := by
  intro l
  induction l with
  | nil => intro _; rfl
  | cons it rest ih =>
    intro h
    revert h
    unfold publishLoop
    cases hr : FeedItem.toRecord? it with
    | none => intro h; cases h
    | some r =>
      intro h
      simp only []
      rw [ih h]

lemma publishLoop_rec_mem : ∀ (l : List FeedItem) (it : FeedItem),
    it ∈ (publishLoop l).1 →
    ∃ rec, FeedItem.toRecord? it = some rec ∧ rec ∈ (publishLoop l).2.1 := by
  intro l
  induction l with
  | nil => intro it h; cases h
  | cons it2 rest ih =>
    intro it hmem
    revert hmem
    unfold publishLoop
    cases hr : FeedItem.toRecord? it2 with
    | none => intro hmem; cases hmem
    | some r =>
      intro hmem
      rcases List.mem_cons.mp hmem with rfl | h2
      · exact ⟨r, hr, List.mem_cons_self r _⟩
      · obtain ⟨rec, hrec, hrecmem⟩ := ih it h2
        exact ⟨rec, hrec, List.mem_cons_of_mem r hrecmem⟩

lemma toRecord?_spec {it : FeedItem} {t : Int} (h : it.timestampMsUTC = some t) :
    FeedItem.toRecord? it = some ⟨t, LedgerBody.post it.title it.markdown⟩ := by
  unfold FeedItem.toRecord?
  rw [h]

/-! ### Projection lemmas for the reconciler pipeline -/

lemma core_nil (ledger : List LedgerRecord) :
    syncFeedCore [] ledger = ⟨[], [], none, [], [], [], [], true⟩ := rfl

lemma core_items0 (i0 : FeedItem) (rest : List FeedItem) (ledger : List LedgerRecord) :
    (syncFeedCore (i0 :: rest) ledger).items0 = i0 :: rest := rfl

lemma core_sorted (i0 : FeedItem) (rest : List FeedItem) (ledger : List LedgerRecord) :
    (syncFeedCore (i0 :: rest) ledger).sorted = jsSort (i0 :: rest) := rfl

lemma core_oldest (i0 : FeedItem) (rest : List FeedItem) (ledger : List LedgerRecord) :
    (syncFeedCore (i0 :: rest) ledger).oldest = headTs (jsSort (i0 :: rest)) := rfl

lemma core_seen (i0 : FeedItem) (rest : List FeedItem) (ledger : List LedgerRecord) :
    (syncFeedCore (i0 :: rest) ledger).seen =
      getSeenGUIDs ledger (headTs (jsSort (i0 :: rest))) := rfl

lemma core_remaining (i0 : FeedItem) (rest : List FeedItem) (ledger : List LedgerRecord) :
    (syncFeedCore (i0 :: rest) ledger).remaining =
      (jsSort (i0 :: rest)).filter
        (fun i => !(seenHas (getSeenGUIDs ledger (headTs (jsSort (i0 :: rest)))) i.guid)) :=
  rfl

lemma core_pubItems (i0 : FeedItem) (rest : List FeedItem) (ledger : List LedgerRecord) :
    (syncFeedCore (i0 :: rest) ledger).publishedItems =
      (publishLoop ((syncFeedCore (i0 :: rest) ledger).remaining)).1 := rfl

lemma core_pubRecs (i0 : FeedItem) (rest : List FeedItem) (ledger : List LedgerRecord) :
    (syncFeedCore (i0 :: rest) ledger).publishedRecords =
      (publishLoop ((syncFeedCore (i0 :: rest) ledger).remaining)).2.1 := rfl

lemma core_ok (i0 : FeedItem) (rest : List FeedItem) (ledger : List LedgerRecord) :
    (syncFeedCore (i0 :: rest) ledger).ok =
      (publishLoop ((syncFeedCore (i0 :: rest) ledger).remaining)).2.2 := rfl

lemma syncFeedRun_err {conv : Option String → String} {unesc : String → String}
    {entries : List FeedEntry} {msg : String}
    (h : collectItems conv unesc (entries.take MAX_FEED_ITEMS) = Except.error msg)
    (ledger : List LedgerRecord) :
    syncFeedRun conv unesc entries ledger = ⟨[], [], none, [], [], [], [], false⟩ := by
  unfold syncFeedRun
  rw [h]

lemma syncFeedRun_ok {conv : Option String → String} {unesc : String → String}
    {entries : List FeedEntry} {items0 : List FeedItem}
    (h : collectItems conv unesc (entries.take MAX_FEED_ITEMS) = Except.ok items0)
    (ledger : List LedgerRecord) :
    syncFeedRun conv unesc entries ledger = syncFeedCore items0 ledger := by
  unfold syncFeedRun
  rw [h]

lemma one_week_pos : (0 : Int) < ONE_WEEK_MS := by decide

/-- Core of the amended idempotence claim: if a first run over `items0`
and ledger `L1` completes, every pending item has a real timestamp, every
published body decodes back to exactly its raw guid, and the second run
sees a newest-first ledger `L2` consisting of `L1` plus exactly the first
run's appends, then the second run's dedup filter removes everything. -/
lemma core_idem (items0 : List FeedItem) (L1 L2 : List LedgerRecord)
    (hvalid : ∀ it ∈ items0, it.timestampMsUTC ≠ none)
    (h1 : (syncFeedCore items0 L1).ok = true)
    (hround : ∀ it ∈ (syncFeedCore items0 L1).remaining,
      ∃ g, it.guid = some g ∧ findGUID it.markdown = some g)
    (hsorted : L2.Pairwise (fun a b => b.timestampMsUtc ≤ a.timestampMsUtc))
    (hperm : L2.Perm ((syncFeedCore items0 L1).publishedRecords ++ L1)) :
    (syncFeedCore items0 L2).remaining = [] := by
  cases items0 with
  | nil => rfl
  | cons i0 rest =>
    have hvS : ∀ it ∈ jsSort (i0 :: rest), it.timestampMsUTC ≠ none :=
      fun it hit => hvalid it ((jsSort_perm _).mem_iff.mp hit)
    have hpS : (jsSort (i0 :: rest)).Pairwise tsLe := jsSort_pairwise hvalid
    obtain ⟨s0, S2, hS0⟩ : ∃ s0 S2, jsSort (i0 :: rest) = s0 :: S2 := by
      cases hSeq : jsSort (i0 :: rest) with
      | nil =>
        have hlen := (jsSort_perm (i0 :: rest)).length_eq
        rw [hSeq] at hlen
        cases hlen
      | cons a b => exact ⟨a, b, rfl⟩
    obtain ⟨t0, ht0⟩ : ∃ t0, s0.timestampMsUTC = some t0 := by
      cases hts : s0.timestampMsUTC with
      | none => exact absurd hts (hvS s0 (by rw [hS0]; exact List.mem_cons_self s0 S2))
      | some t0 => exact ⟨t0, rfl⟩
    have hold : headTs (jsSort (i0 :: rest)) = some t0 := by
      rw [hS0]
      exact ht0
    have hpubits : (publishLoop ((syncFeedCore (i0 :: rest) L1).remaining)).1 =
        (syncFeedCore (i0 :: rest) L1).remaining := by
      apply publishLoop_ok_items
      rw [← core_ok]
      exact h1
    have hmain : ∀ it ∈ jsSort (i0 :: rest),
        seenHas (getSeenGUIDs L2 (some t0)) it.guid = true := by
      intro it hit
      by_cases hseen : seenHas (getSeenGUIDs L1 (some t0)) it.guid = true
      · cases hg : it.guid with
        | none =>
          rw [hg] at hseen
          cases hseen
        | some g =>
          rw [hg] at hseen
          have hmemseen : g ∈ getSeenGUIDs L1 (some t0) :=
            (seenHas_some_iff _ g).mp hseen
          obtain ⟨r, hrtw, hrg, hgne⟩ := (mem_getSeenGUIDs_iff L1 t0 g).mp hmemseen
          have hrL1 : r ∈ L1 := (List.takeWhile_sublist _).subset hrtw
          have hrpred := List.mem_takeWhile_imp hrtw
          have hc : t0 - ONE_WEEK_MS ≤ r.timestampMsUtc := by
            simp [jsLtB] at hrpred
            omega
          have hrL2 : r ∈ L2 := hperm.mem_iff.mpr (List.mem_append_right _ hrL1)
          have hrtw2 := mem_takeWhile_of_desc hsorted r hrL2 hc
          rw [seenHas_some_iff]
          exact (mem_getSeenGUIDs_iff L2 t0 g).mpr ⟨r, hrtw2, hrg, hgne⟩
      · have hit_rem : it ∈ (syncFeedCore (i0 :: rest) L1).remaining := by
          rw [core_remaining, hold]
          refine List.mem_filter.mpr ⟨hit, ?_⟩
          simp only [Bool.not_eq_true] at hseen
          simp [hseen]
        obtain ⟨g, hg, hfind⟩ := hround it hit_rem
        obtain ⟨t, ht⟩ : ∃ t, it.timestampMsUTC = some t := by
          cases hts : it.timestampMsUTC with
          | none => exact absurd hts (hvS it hit)
          | some t => exact ⟨t, rfl⟩
        have ht0t : t0 ≤ t := by
          have := sorted_head_tsLe (hS0 ▸ hpS) it (hS0 ▸ hit)
          exact this t0 t ht0 ht
        have hitpub : it ∈ (publishLoop ((syncFeedCore (i0 :: rest) L1).remaining)).1 := by
          rw [hpubits]
          exact hit_rem
        obtain ⟨rec, hrec, hrecmem⟩ := publishLoop_rec_mem _ it hitpub
        rw [toRecord?_spec ht] at hrec
        injection hrec with hrec2
        have hrecL2 : rec ∈ L2 := by
          refine hperm.mem_iff.mpr (List.mem_append_left _ ?_)
          rw [core_pubRecs]
          exact hrecmem
        have hcut : t0 - ONE_WEEK_MS ≤ rec.timestampMsUtc := by
          rw [← hrec2]
          have := one_week_pos
          simp only []
          omega
        have hrectw := mem_takeWhile_of_desc hsorted rec hrecL2 hcut
        have hgne : g ≠ "" := (findGUID_some_shape hfind).1
        have hrg : recGUID rec = some g := by
          rw [← hrec2]
          exact hfind
        rw [hg, seenHas_some_iff]
        exact (mem_getSeenGUIDs_iff L2 t0 g).mpr ⟨rec, hrectw, hrg, hgne⟩
    rw [core_remaining, hold]
    refine List.filter_eq_nil_iff.mpr ?_
    intro it hit
    simp [hmain it hit]

/-! ### Claim theorems -/

/-- C1 counterexample: one entry whose feed id is the two characters
greater-than x.  The first run (empty ledger) publishes one record whose
embedded marker holds the normalized id (just x).  Running again on
exactly that ledger (the first run's own appends, newest first) publishes
the item again, because the dedup filter compares the raw id against the
decoded marker: the claimed idempotence fails. -/
theorem sync_not_idempotent_cx :
    (syncFeedRun (fun _ => "") (fun s => s)
        [⟨some ">x", some (some 1000), none, none, none, [], none⟩] []).publishedRecords =
      [⟨1000, LedgerBody.post none
        (String.mk ('\n' :: '\n' :: (markerOpen ++ ('x' :: markerClose))))⟩] ∧
    (syncFeedRun (fun _ => "") (fun s => s)
        [⟨some ">x", some (some 1000), none, none, none, [], none⟩]
        [⟨1000, LedgerBody.post none
          (String.mk ('\n' :: '\n' :: (markerOpen ++ ('x' :: markerClose))))⟩]).publishedItems
      ≠ [] := by
  exact ⟨by decide, by decide⟩

/-- C1, amended: running `syncFeed` twice in succession on the same feed
publishes zero new records on the second run, provided the first run
completed, every normalized item has a real (non-NaN) timestamp, every
pending item's body decodes back to exactly its raw external id, and the
second run's ledger is a newest-first ordering of the first run's ledger
plus exactly the first run's appends.  Every item published by the first
run is then found in the second run's seen set and filtered out. -/
theorem sync_idempotent_amended (conv : Option String → String) (unesc : String → String)
    (entries : List FeedEntry) (L1 L2 : List LedgerRecord)
    (hvalid : ∀ it ∈ (syncFeedRun conv unesc entries L1).items0, it.timestampMsUTC ≠ none)
    (h1 : (syncFeedRun conv unesc entries L1).ok = true)
    (hround : ∀ it ∈ (syncFeedRun conv unesc entries L1).remaining,
      ∃ g, it.guid = some g ∧ findGUID it.markdown = some g)
    (hsorted : L2.Pairwise (fun a b => b.timestampMsUtc ≤ a.timestampMsUtc))
    (hperm : L2.Perm ((syncFeedRun conv unesc entries L1).publishedRecords ++ L1)) :
    (syncFeedRun conv unesc entries L2).publishedItems = [] ∧
    (syncFeedRun conv unesc entries L2).publishedRecords = [] ∧
    ∀ it ∈ (syncFeedRun conv unesc entries L1).publishedItems,
      seenHas ((syncFeedRun conv unesc entries L2).seen) it.guid = true := by
  cases hcoll : collectItems conv unesc (entries.take MAX_FEED_ITEMS) with
  | error msg =>
    rw [syncFeedRun_err hcoll]
    refine ⟨rfl, rfl, ?_⟩
    rw [syncFeedRun_err hcoll]
    intro it hit
    cases hit
  | ok items0 =>
    rw [syncFeedRun_ok hcoll] at hvalid h1 hround hperm ⊢
    rw [syncFeedRun_ok hcoll]
    have hvalid2 : ∀ it ∈ items0, it.timestampMsUTC ≠ none := by
      cases items0 with
      | nil => intro it hit; cases hit
      | cons a b => exact hvalid
    have hrem := core_idem items0 L1 L2 hvalid2 h1 hround hsorted hperm
    cases items0 with
    | nil =>
      refine ⟨rfl, rfl, ?_⟩
      intro it hit
      cases hit
    | cons i0 rest =>
      refine ⟨?_, ?_, ?_⟩
      · rw [core_pubItems, hrem]
        rfl
      · rw [core_pubRecs, hrem]
        rfl
      · intro it hit
        have hitS : it ∈ jsSort (i0 :: rest) := by
          rw [core_pubItems] at hit
          have h2 := (publishLoop_items_sublist _).subset hit
          rw [core_remaining] at h2
          exact (List.filter_sublist _).subset h2
        have hall := List.filter_eq_nil_iff.mp (by rw [← core_remaining]; exact hrem)
        have := hall it hitS
        rw [core_seen]
        simp only [Bool.not_eq_true] at this
        simpa using this

/-- Witness for the amended C1 theorem at a concrete one-entry feed whose
id round-trips. -/
theorem sync_idempotent_amended_witness :
    (syncFeedRun (fun _ => "") (fun s => s)
        [⟨some "y", some (some 2000), none, none, none, [], none⟩]
        [⟨2000, LedgerBody.post none
          (String.mk ('\n' :: '\n' :: (markerOpen ++ ('y' :: markerClose))))⟩]).publishedItems
      = [] ∧
    (syncFeedRun (fun _ => "") (fun s => s)
        [⟨some "y", some (some 2000), none, none, none, [], none⟩]
        [⟨2000, LedgerBody.post none
          (String.mk ('\n' :: '\n' :: (markerOpen ++ ('y' :: markerClose))))⟩]).publishedRecords
      = [] := by
  have h := sync_idempotent_amended (fun _ => "") (fun s => s)
    [⟨some "y", some (some 2000), none, none, none, [], none⟩] []
    [⟨2000, LedgerBody.post none
      (String.mk ('\n' :: '\n' :: (markerOpen ++ ('y' :: markerClose))))⟩]
    (by decide) (by decide) (by decide) (by decide) (by decide)
  exact ⟨h.1, h.2.1⟩

/-- C3: an item whose external identifier is in the seen set built by the
history scan is removed by the dedup filter and never published. -/
theorem dedup_removes_seen (conv : Option String → String) (unesc : String → String)
    (entries : List FeedEntry) (ledger : List LedgerRecord) (g : String)
    (hg : g ∈ (syncFeedRun conv unesc entries ledger).seen) :
    (∀ it ∈ (syncFeedRun conv unesc entries ledger).remaining, it.guid ≠ some g) ∧
    (∀ it ∈ (syncFeedRun conv unesc entries ledger).publishedItems, it.guid ≠ some g) := by
  cases hcoll : collectItems conv unesc (entries.take MAX_FEED_ITEMS) with
  | error msg =>
    rw [syncFeedRun_err hcoll] at hg
    cases hg
  | ok items0 =>
    rw [syncFeedRun_ok hcoll] at hg ⊢
    cases items0 with
    | nil => cases hg
    | cons i0 rest =>
      have hrem : ∀ it ∈ (syncFeedCore (i0 :: rest) ledger).remaining,
          it.guid ≠ some g := by
        intro it hit hgid
        rw [core_remaining] at hit
        have h2 := (List.mem_filter.mp hit).2
        rw [hgid] at h2
        rw [core_seen] at hg
        rw [Bool.not_eq_true'] at h2
        rw [← seenHas_some_iff] at hg
        rw [h2] at hg
        cases hg
      refine ⟨hrem, ?_⟩
      intro it hit
      apply hrem
      rw [core_pubItems] at hit
      exact (publishLoop_items_sublist _).subset hit

/-- Witness for C3: a concrete feed with one already-seen id (x) and one
new id (y); the published item (the y one) does not carry the seen id. -/
theorem dedup_removes_seen_witness :
    (⟨some "y", none, String.mk ('\n' :: '\n' :: (markerOpen ++ ('y' :: markerClose))),
      some 2000⟩ : FeedItem).guid ≠ some "x" :=
  (dedup_removes_seen (fun _ => "") (fun s => s)
    [⟨some "y", some (some 2000), none, none, none, [], none⟩,
     ⟨some "x", some (some 1000), none, none, none, [], none⟩]
    [⟨1500, LedgerBody.post none (String.mk (markerOpen ++ ('x' :: markerClose)))⟩]
    "x" (by decide)).2
    ⟨some "y", none, String.mk ('\n' :: '\n' :: (markerOpen ++ ('y' :: markerClose))),
      some 2000⟩
    (by decide)

/-- C4: when every normalized item has a real timestamp, the items a run
publishes are pairwise ordered by ascending publish timestamp; the model
publishes them sequentially in exactly this list order. -/
theorem publish_order (conv : Option String → String) (unesc : String → String)
    (entries : List FeedEntry) (ledger : List LedgerRecord)
    (hvalid : ∀ it ∈ (syncFeedRun conv unesc entries ledger).items0,
      it.timestampMsUTC ≠ none) :
    (syncFeedRun conv unesc entries ledger).publishedItems.Pairwise tsLe := by
  cases hcoll : collectItems conv unesc (entries.take MAX_FEED_ITEMS) with
  | error msg =>
    rw [syncFeedRun_err hcoll]
    exact List.Pairwise.nil
  | ok items0 =>
    rw [syncFeedRun_ok hcoll] at hvalid ⊢
    cases items0 with
    | nil => exact List.Pairwise.nil
    | cons i0 rest =>
      have hvalid2 : ∀ it ∈ i0 :: rest, it.timestampMsUTC ≠ none := hvalid
      have hpS := jsSort_pairwise hvalid2
      rw [core_pubItems]
      refine hpS.sublist ?_
      refine (publishLoop_items_sublist _).trans ?_
      rw [core_remaining]
      exact List.filter_sublist _

/-- Witness for C4 at a concrete two-entry feed. -/
theorem publish_order_witness :
    (syncFeedRun (fun _ => "") (fun s => s)
      [⟨some "y", some (some 2000), none, none, none, [], none⟩,
       ⟨some "x", some (some 1000), none, none, none, [], none⟩]
      []).publishedItems.Pairwise tsLe :=
  publish_order (fun _ => "") (fun s => s)
    [⟨some "y", some (some 2000), none, none, none, [], none⟩,
     ⟨some "x", some (some 1000), none, none, none, [], none⟩]
    [] (by decide)

/-- C2 counterexample: for the identifier consisting of the single
greater-than character, removal of quote and greater-than characters
leaves the empty string, the emitted marker has an empty quoted id, and
decoding recovers nothing (the pattern requires a nonempty capture), not
the claimed stripped identifier. -/
theorem guid_roundtrip_cx :
    findGUID (addGUID "" (some ">")) = none ∧
    String.mk (">".data.filter guidChar) = "" := by
  exact ⟨by decide, by decide⟩

/-- Witness for the amended C2 theorem. -/
theorem guid_roundtrip_witness :
    findGUID (addGUID "Hello" (some "abc")) = some (normalizeGUID (some "abc")) :=
  guid_roundtrip "Hello" "abc" (by decide) (by decide)

/-- C5: membership in the history scanner's result set holds exactly for
identifiers decoded from post records in the prefix of the newest-first
stream before the first record strictly older than the oldest pending
timestamp minus one week; non-post records contribute nothing (their
`recGUID` is `none`). -/
theorem seen_window_exact (ledger : List LedgerRecord) (t : Int) (g : String) :
    g ∈ getSeenGUIDs ledger (some t) ↔
      ∃ r ∈ ledger.takeWhile (fun x => !jsLtB x.timestampMsUtc (some (t - ONE_WEEK_MS))),
        recGUID r = some g := by
  rw [mem_getSeenGUIDs_iff]
  constructor
  · rintro ⟨r, hr1, hr2, hr3⟩
    exact ⟨r, hr1, hr2⟩
  · rintro ⟨r, hr1, hr2⟩
    exact ⟨r, hr1, hr2, recGUID_shape hr2⟩

/-- C6: constructing a `FeedItem` whose publish timestamp is exactly the
epoch instant (millisecond value 0) throws, whatever the other fields
are. -/
theorem zero_timestamp_rejected (guid title : Option String) (markdown : String) :
    FeedItem.mk? guid title markdown (some 0) =
      Except.error "a FeedItem Date may not be exactly UNIX Epoch." := rfl

/-- C9: construction succeeds for every timestamp other than exactly 0,
including negative times and NaN (the JS equality `NaN == 0` is false,
so an invalid Date passes the only rejection test). -/
theorem nonzero_timestamp_accepted (guid title : Option String) (markdown : String)
    (p : JSNum) (h : p ≠ some 0) :
    FeedItem.mk? guid title markdown p = Except.ok ⟨guid, title, markdown, p⟩ := by
  unfold FeedItem.mk?
  rw [if_neg h]

/-- Witness for C9 at a NaN timestamp and at a negative timestamp. -/
theorem nonzero_timestamp_accepted_witness :
    FeedItem.mk? (some "g") none "b" none = Except.ok ⟨some "g", none, "b", none⟩ ∧
    FeedItem.mk? (some "g") none "b" (some (-1)) =
      Except.ok ⟨some "g", none, "b", some (-1)⟩ :=
  ⟨nonzero_timestamp_accepted (some "g") none "b" none (by decide),
   nonzero_timestamp_accepted (some "g") none "b" (some (-1)) (by decide)⟩

/-- C10: `findGUID` returns nothing or a nonempty string free of double
quote and greater-than characters; in particular the marker with an empty
quoted identifier is never recovered. -/
theorem findGUID_result_shape :
    (∀ s : String, findGUID s = none ∨
      ∃ g, findGUID s = some g ∧ g ≠ "" ∧ ∀ c ∈ g.data, c ≠ '"' ∧ c ≠ '>') ∧
    findGUID (String.mk (markerOpen ++ markerClose)) = none := by
  constructor
  · intro s
    cases h : findGUID s with
    | none => exact Or.inl rfl
    | some g =>
      right
      obtain ⟨h1, h2⟩ := findGUID_some_shape h
      refine ⟨g, rfl, h1, ?_⟩
      intro c hc
      have h3 := h2 c hc
      unfold guidChar at h3
      simp at h3
      exact h3
  · decide

lemma urlMatchAt_refl : ∀ (p rest : List Char), urlMatchAt p (p ++ rest) = true := by
  intro p
  induction p with
  | nil => intro rest; rfl
  | cons c cs ih =>
    intro rest
    show ((if c = '.' then !(isLineTerm c) else c = c) && urlMatchAt cs (cs ++ rest)) = true
    by_cases h : c = '.'
    · subst h
      have hdot : isLineTerm '.' = false := by decide
      simp [ih, hdot]
    · simp [h, ih]

lemma searchFound_head (pat text : List Char) (h : urlMatchAt pat text = true) :
    searchFound pat text = true := by
  cases text with
  | nil => exact h
  | cons c cs =>
    show (urlMatchAt pat (c :: cs) || searchFound pat cs) = true
    rw [h]
    rfl

lemma searchFound_of_occurs {pat text : List Char} (h : ∃ u v, text = u ++ pat ++ v) :
    searchFound pat text = true := by
  obtain ⟨u, v, hv⟩ := h
  subst hv
  induction u with
  | nil =>
    show searchFound pat ([] ++ pat ++ v) = true
    rw [List.nil_append]
    exact searchFound_head pat (pat ++ v) (urlMatchAt_refl pat v)
  | cons c u ih =>
    show (urlMatchAt pat (c :: (u ++ pat ++ v)) || searchFound pat (u ++ pat ++ v)) = true
    rw [ih]
    exact Bool.or_true _

/-- C7 counterexample: with the URL a.c (one dot), the URL is not a
substring of the body abc, yet `addURL` returns the body unchanged,
because `String.prototype.search` interprets the URL as a regular
expression and the dot matches the letter b.  The claimed iff with
textual presence fails. -/
theorem addURL_not_textual_cx :
    addURL "abc" "a.c" = "abc" ∧ occursIn "a.c".data "abc".data = false := by
  exact ⟨by decide, by decide⟩

/-- C7, amended: the backlink is appended iff the URL, coerced to a
regular expression, matches nowhere in the body.  For a URL free of regex
metacharacters other than the dot, a literal occurrence in the body
always counts as a match, so a literally present URL leaves the body
unchanged; but a URL that merely pattern-matches (dot matching any
character) also suppresses the backlink, as the counterexample shows. -/
theorem addURL_literal_unchanged (markdown url : String)
    (_hmeta : ∀ c ∈ url.data, c ∉ ['\\', '^', '$', '*', '+', '?', '(', ')', '[', ']',
      '\x7b', '\x7d', '|'])
    (hsub : occursIn url.data markdown.data = true) :
    addURL markdown url = markdown := by
  have hfound : searchFound url.data markdown.data = true := by
    apply searchFound_of_occurs
    obtain ⟨u, v, hv⟩ := (occursIn_iff url.data markdown.data).mp hsub
    exact ⟨u, v, hv⟩
  unfold addURL
  rw [if_pos hfound]

/-- Witness for the amended C7 theorem. -/
theorem addURL_literal_unchanged_witness :
    addURL "see http://x for more" "http://x" = "see http://x for more" :=
  addURL_literal_unchanged "see http://x for more" "http://x" (by decide) (by decide)

/-- C8: the batch loop attempts every configured feed (the outcome list
is exactly the per-feed runs, in order) and exits nonzero iff at least
one feed's sync failed. -/
theorem batch_isolates_failures (conv : Option String → String) (unesc : String → String)
    (feeds : List (List FeedEntry × List LedgerRecord)) :
    syncBatch conv unesc feeds = feeds.map (fun p => syncFeedRun conv unesc p.1 p.2) ∧
    (syncExitCode conv unesc feeds ≠ 0 ↔
      ∃ p ∈ feeds, (syncFeedRun conv unesc p.1 p.2).ok = false) := by
  constructor
  · induction feeds with
    | nil => rfl
    | cons f rest ih =>
      show syncFeedRun conv unesc f.1 f.2 :: syncBatch conv unesc rest = _
      rw [List.map_cons, ih]
  · have hiff : ∀ fs : List (List FeedEntry × List LedgerRecord),
        0 < batchErrorCount conv unesc fs ↔
          ∃ p ∈ fs, (syncFeedRun conv unesc p.1 p.2).ok = false := by
      intro fs
      induction fs with
      | nil => simp [batchErrorCount]
      | cons f rest ih =>
        show 0 < (if (syncFeedRun conv unesc f.1 f.2).ok then 0 else 1)
            + batchErrorCount conv unesc rest ↔ _
        by_cases h : (syncFeedRun conv unesc f.1 f.2).ok = true
        · rw [if_pos h]
          simp only [Nat.zero_add]
          rw [ih]
          constructor
          · rintro ⟨p, hp, hfail⟩
            exact ⟨p, List.mem_cons_of_mem f hp, hfail⟩
          · rintro ⟨p, hp, hfail⟩
            rcases List.mem_cons.mp hp with rfl | hp2
            · rw [h] at hfail
              cases hfail
            · exact ⟨p, hp2, hfail⟩
        · rw [if_neg h]
          constructor
          · intro _
            exact ⟨f, List.mem_cons_self f rest,
              by cases hok : (syncFeedRun conv unesc f.1 f.2).ok with
                | true => exact absurd hok h
                | false => rfl⟩
          · intro _
            omega
    unfold syncExitCode
    by_cases hc : 0 < batchErrorCount conv unesc feeds
    · rw [if_pos hc]
      constructor
      · intro _
        exact (hiff feeds).mp hc
      · intro _
        omega
    · rw [if_neg hc]
      constructor
      · intro h0
        exact absurd rfl h0
      · intro hex h00
        exact hc ((hiff feeds).mpr hex)
